import Mathlib

/-!
Verification development for the tensora-miner-node repository.

The development shallowly embeds the parts of the Python source that the
specification talks about:

* `compute_hash` — the identical static methods `ONNXEngine.compute_hash`
  (src/services/miner-node/engine/onnx_runtime.py) and
  `VLLMEngine.compute_hash` (src/services/miner-node/engine/vllm_runtime.py):
  `json.dumps(d, sort_keys=True, separators=(',', ':'))`, SHA-256 over the
  UTF-8 bytes, rendered `"0x" + hexdigest`.
* `vllm_run_inference` / `vllm_run_batch` — `VLLMEngine.run_inference` and
  `VLLMEngine.run_batch`.
* `onnx_run_inference` — `ONNXEngine.run_inference`.
* `send_transaction` — `TensoraRPC.send_transaction`
  (src/services/shared/rpc_client.py).
* `upload_to_ipfs`, `verify_cid`, and a small-step model of
  `download_from_ipfs` (src/services/shared/ipfs_utils.py).

Python values appearing as `json.dumps` inputs are embedded as `PyVal`;
machine integers do not occur (Python ints are unbounded), bytes are `Nat`
lists with values below 256, and SHA-256 is implemented bit-faithfully over
`Nat` with explicit `% 2^32` arithmetic.
-/

/-! ### Decimal and hexadecimal rendering -/

/-- Decimal digits of `n`, most significant first, computed with `fuel`
recursion depth (sufficient whenever `n ≤ fuel`).  Mirrors Python's `repr`
for a non-negative `int`, except that `natDecAux _ 0 = []`. -/
def natDecAux : Nat → Nat → List Char
  | 0, _ => []
  | fuel + 1, n => if n = 0 then [] else natDecAux fuel (n / 10) ++ [Nat.digitChar (n % 10)]

/-- Decimal rendering of a natural number, as Python `repr` renders a
non-negative `int`. -/
def natDecimal (n : Nat) : String :=
  if n = 0 then "0" else String.mk (natDecAux n n)

/-- Decimal rendering of an integer, as Python `repr` renders an `int`. -/
def intDecimal : Int → String
  | Int.ofNat m => natDecimal m
  | Int.negSucc m => "-" ++ natDecimal (m + 1)

/-- Numeric value of a list of decimal digit characters. -/
def decEval (l : List Char) : Nat :=
  l.foldl (fun acc c => 10 * acc + (c.toNat - 48)) 0

/-- The sixteen lowercase hexadecimal digit characters. -/
def hexChars : List Char := "0123456789abcdef".toList

/-- Two lowercase hex characters for one byte, as Python's `hexdigest`
renders each byte. -/
def hexPair (b : Nat) : List Char :=
  [Nat.digitChar (b / 16 % 16), Nat.digitChar (b % 16)]

/-- Lowercase hex rendering of a byte string, as Python's `hexdigest`. -/
def bytesToHex : List Nat → List Char
  | [] => []
  | b :: t => hexPair b ++ bytesToHex t

/-! ### SHA-256 (FIPS 180-4) over byte lists -/

/-- Reduction of a `Nat` to a 32-bit word. -/
def w32 (n : Nat) : Nat := n % 4294967296

/-- Right rotation of a 32-bit word by `n` bits. -/
def rotr (n x : Nat) : Nat := w32 ((x >>> n) ||| (x <<< (32 - n)))

/-- SHA-256 small sigma 0. -/
def ssig0 (x : Nat) : Nat := rotr 7 x ^^^ rotr 18 x ^^^ (x >>> 3)

/-- SHA-256 small sigma 1. -/
def ssig1 (x : Nat) : Nat := rotr 17 x ^^^ rotr 19 x ^^^ (x >>> 10)

/-- SHA-256 big sigma 0. -/
def bsig0 (x : Nat) : Nat := rotr 2 x ^^^ rotr 13 x ^^^ rotr 22 x

/-- SHA-256 big sigma 1. -/
def bsig1 (x : Nat) : Nat := rotr 6 x ^^^ rotr 11 x ^^^ rotr 25 x

/-- SHA-256 choose function. -/
def chFn (x y z : Nat) : Nat := (x &&& y) ^^^ ((w32 (4294967295 - x)) &&& z)

/-- SHA-256 majority function. -/
def majFn (x y z : Nat) : Nat := (x &&& y) ^^^ (x &&& z) ^^^ (y &&& z)

/-- The 64 SHA-256 round constants. -/
def sha256K : List Nat :=
  [1116352408, 1899447441, 3049323471, 3921009573,
   961987163, 1508970993, 2453635748, 2870763221,
   3624381080, 310598401, 607225278, 1426881987,
   1925078388, 2162078206, 2614888103, 3248222580,
   3835390401, 4022224774, 264347078, 604807628,
   770255983, 1249150122, 1555081692, 1996064986,
   2554220882, 2821834349, 2952996808, 3210313671,
   3336571891, 3584528711, 113926993, 338241895,
   666307205, 773529912, 1294757372, 1396182291,
   1695183700, 1986661051, 2177026350, 2456956037,
   2730485921, 2820302411, 3259730800, 3345764771,
   3516065817, 3600352804, 4094571909, 275423344,
   430227734, 506948616, 659060556, 883997877,
   958139571, 1322822218, 1537002063, 1747873779,
   1955562222, 2024104815, 2227730452, 2361852424,
   2428436474, 2756734187, 3204031479, 3329325298]

/-- The eight 32-bit words of a SHA-256 state. -/
structure Hash8 where
  a : Nat
  b : Nat
  c : Nat
  d : Nat
  e : Nat
  f : Nat
  g : Nat
  h : Nat
deriving Repr, DecidableEq

/-- Initial SHA-256 state. -/
def sha256H0 : Hash8 :=
  ⟨1779033703,
   3144134277,
   1013904242,
   2773480762,
   1359893119,
   2600822924,
   528734635,
   1541459225⟩

/-- Big-endian bytes of one 32-bit word. -/
def wordBytes (w : Nat) : List Nat :=
  [w >>> 24 % 256, w >>> 16 % 256, w >>> 8 % 256, w % 256]

/-- Digest bytes of a SHA-256 state. -/
def hashBytes (s : Hash8) : List Nat :=
  wordBytes s.a ++ wordBytes s.b ++ wordBytes s.c ++ wordBytes s.d ++
  wordBytes s.e ++ wordBytes s.f ++ wordBytes s.g ++ wordBytes s.h

/-- Group a byte list into big-endian 32-bit words (length a multiple of 4). -/
def bytesToWords : List Nat → List Nat
  | b0 :: b1 :: b2 :: b3 :: rest =>
      (b0 <<< 24 ||| b1 <<< 16 ||| b2 <<< 8 ||| b3) :: bytesToWords rest
  | _ => []

/-- Extend a 16-word message block to the 64-word SHA-256 schedule by
`steps` extension rounds. -/
def extendW : Nat → List Nat → List Nat
  | 0, ws => ws
  | steps + 1, ws =>
      let n := ws.length
      extendW steps (ws ++ [w32 (ssig1 (ws.getD (n - 2) 0) + ws.getD (n - 7) 0 +
        ssig0 (ws.getD (n - 15) 0) + ws.getD (n - 16) 0)])

/-- One SHA-256 compression round; `kw` is the sum of round constant and
schedule word. -/
def sha256Round (s : Hash8) (kw : Nat) : Hash8 :=
  let t1 := w32 (s.h + bsig1 s.e + chFn s.e s.f s.g + kw)
  let t2 := w32 (bsig0 s.a + majFn s.a s.b s.c)
  ⟨w32 (t1 + t2), s.a, s.b, s.c, w32 (s.d + t1), s.e, s.f, s.g⟩

/-- SHA-256 compression of one 16-word block into the running state. -/
def compressBlock (st : Hash8) (block : List Nat) : Hash8 :=
  let ws := extendW 48 block
  let kws := List.zipWith (fun k w => w32 (k + w)) sha256K ws
  let r := kws.foldl sha256Round st
  ⟨w32 (st.a + r.a), w32 (st.b + r.b), w32 (st.c + r.c), w32 (st.d + r.d),
   w32 (st.e + r.e), w32 (st.f + r.f), w32 (st.g + r.g), w32 (st.h + r.h)⟩

/-- Consecutive chunks of size `bs`, with explicit fuel for structural
recursion.  Models Python's `for i in range(0, len(xs), bs): xs[i:i+bs]`. -/
def chunksAux (bs : Nat) : Nat → List α → List (List α)
  | 0, _ => []
  | _, [] => []
  | fuel + 1, xs => xs.take bs :: chunksAux bs fuel (xs.drop bs)

/-- Consecutive chunks of size `bs` of a list. -/
def chunksOf (bs : Nat) (xs : List α) : List (List α) :=
  chunksAux bs xs.length xs

/-- Big-endian 8-byte rendering of the SHA-256 message bit length. -/
def lenBytes (n : Nat) : List Nat :=
  [n >>> 56 % 256, n >>> 48 % 256, n >>> 40 % 256, n >>> 32 % 256,
   n >>> 24 % 256, n >>> 16 % 256, n >>> 8 % 256, n % 256]

/-- SHA-256 padding of a message of byte length `len`: the count of zero
bytes after the `0x80` marker. -/
def padZeroCount (len : Nat) : Nat := (64 - (len + 9) % 64) % 64

/-- SHA-256 of a byte string, as the final eight-word state. -/
def sha256 (msg : List Nat) : Hash8 :=
  let padded := msg ++ 0x80 :: (List.replicate (padZeroCount msg.length) 0 ++ lenBytes (8 * msg.length))
  (chunksOf 64 padded).foldl (fun st blk => compressBlock st (bytesToWords blk)) sha256H0

/-- Lowercase hex digest of a byte string, as Python's
`hashlib.sha256(msg).hexdigest()`. -/
def sha256hex (msg : List Nat) : String :=
  String.mk (bytesToHex (hashBytes (sha256 msg)))

/-! ### UTF-8 encoding, as Python's `str.encode('utf-8')` -/

/-- UTF-8 bytes of one character. -/
def utf8Char (c : Char) : List Nat :=
  let n := c.toNat
  if n < 0x80 then [n]
  else if n < 0x800 then [0xC0 ||| (n >>> 6), 0x80 ||| (n &&& 0x3F)]
  else if n < 0x10000 then
    [0xE0 ||| (n >>> 12), 0x80 ||| ((n >>> 6) &&& 0x3F), 0x80 ||| (n &&& 0x3F)]
  else
    [0xF0 ||| (n >>> 18), 0x80 ||| ((n >>> 12) &&& 0x3F),
     0x80 ||| ((n >>> 6) &&& 0x3F), 0x80 ||| (n &&& 0x3F)]

/-- UTF-8 bytes of a string. -/
def utf8Encode (s : String) : List Nat :=
  (s.toList.map utf8Char).flatten

/-- Lowercase hex SHA-256 digest of the UTF-8 bytes of a string, as
Python's `hashlib.sha256(s.encode('utf-8')).hexdigest()`. -/
def sha256hexStr (s : String) : String :=
  sha256hex (utf8Encode s)

/-! ### Code-point lexicographic string order, as Python `str` comparison -/

/-- Boolean lexicographic strict order on character lists by code point,
matching Python string comparison. -/
def charListLtB : List Char → List Char → Bool
  | _, [] => false
  | [], _ :: _ => true
  | a :: as, b :: bs =>
      decide (a.toNat < b.toNat) || (decide (a.toNat = b.toNat) && charListLtB as bs)

/-- Boolean strict order on strings by code point. -/
def strLtB (a b : String) : Bool := charListLtB a.data b.data

/-- Boolean weak order on strings by code point. -/
def strLeB (a b : String) : Bool := !(charListLtB b.data a.data)

/-! ### JSON string escaping, as `json.dumps` with `ensure_ascii=True` -/

/-- The four-character `\uXXXX` escape body for a code unit. -/
def uEscape (n : Nat) : List Char :=
  ['\\', 'u', Nat.digitChar (n >>> 12 % 16), Nat.digitChar (n >>> 8 % 16),
   Nat.digitChar (n >>> 4 % 16), Nat.digitChar (n % 16)]

/-- JSON escape of one character: `"` and `\` are backslash-escaped, the
printable ASCII range 0x20–0x7e passes through, the short control escapes
are used for \b \t \n \f \r, every other character becomes `\uXXXX`
(a surrogate pair for code points above 0xFFFF), as `json.dumps` does with
its default `ensure_ascii=True`. -/
def escChar (c : Char) : List Char :=
  if c = '"' then ['\\', '"']
  else if c = '\\' then ['\\', '\\']
  else if 0x20 ≤ c.toNat ∧ c.toNat ≤ 0x7e then [c]
  else if c = '\x08' then ['\\', 'b']
  else if c = '\t' then ['\\', 't']
  else if c = '\n' then ['\\', 'n']
  else if c = '\x0c' then ['\\', 'f']
  else if c = '\r' then ['\\', 'r']
  else if c.toNat < 0x10000 then uEscape c.toNat
  else
    uEscape (0xD800 + (c.toNat - 0x10000) >>> 10) ++
    uEscape (0xDC00 + ((c.toNat - 0x10000) &&& 0x3FF))

/-- JSON rendering of a Python string: escaped and double-quoted. -/
def quoteStr (s : String) : String :=
  "\"" ++ String.mk (s.toList.map escChar).flatten ++ "\""

/-! ### Python values and `json.dumps(v, sort_keys=True, separators=(',', ':'))` -/

/-- A Python float as far as `json.dumps` is concerned.  A finite float is
carried as its `repr` string (Python's shortest round-trip rendering, which
`json.dumps` emits verbatim); the non-finite values get the distinguished
tokens below. -/
inductive PyFloat where
  | finite (r : String)
  | nan
  | inf
  | ninf
deriving Repr, DecidableEq

/-- A Python value of the shapes the engines pass to `json.dumps`:
`None`, `bool`, `int`, `float`, `str`, `list`, and `dict` with string keys
in insertion order. -/
inductive PyVal where
  | pyNull
  | pyBool (b : Bool)
  | pyInt (n : Int)
  | pyFloat (f : PyFloat)
  | pyStr (s : String)
  | pyList (xs : List PyVal)
  | pyDict (kvs : List (String × PyVal))
deriving Repr

/-- Rendering of a Python float by `json.dumps`: `repr` for finite floats,
and the tokens `NaN`, `Infinity`, `-Infinity` for the non-finite values
(the library's default `allow_nan=True` behaviour). -/
def floatRepr : PyFloat → String
  | .finite r => r
  | .nan => "NaN"
  | .inf => "Infinity"
  | .ninf => "-Infinity"

/-- Comma-joined concatenation, as `','.join`. -/
def joinComma : List String → String
  | [] => ""
  | [s] => s
  | s :: tl => s ++ "," ++ joinComma tl

/-- Weak key order on rendered key/value pairs. -/
def pairLe (a b : String × String) : Prop := strLeB a.1 b.1 = true

/-- Strict key order on rendered key/value pairs. -/
def pairLt (a b : String × String) : Prop := strLtB a.1 b.1 = true

instance : DecidableRel pairLe := fun a b =>
  inferInstanceAs (Decidable (strLeB a.1 b.1 = true))

instance : DecidableRel pairLt := fun a b =>
  inferInstanceAs (Decidable (strLtB a.1 b.1 = true))

/-- Sort rendered key/value pairs by key in code-point order, as
`sort_keys=True` orders a dict's items (dict keys are unique, so comparing
keys alone agrees with Python's tuple comparison of items). -/
def sortPairs (l : List (String × String)) : List (String × String) :=
  l.insertionSort pairLe

/-- Rendered `"key":value` members of an object. -/
def renderPairs (l : List (String × String)) : List String :=
  l.map (fun kv => quoteStr kv.1 ++ ":" ++ kv.2)

mutual

/-- Canonical serialization of a Python value: `json.dumps(v,
sort_keys=True, separators=(',', ':'))` — keys sorted at every nesting
level, no insignificant whitespace. -/
def serialize : PyVal → String
  | .pyNull => "null"
  | .pyBool b => if b then "true" else "false"
  | .pyInt n => intDecimal n
  | .pyFloat f => floatRepr f
  | .pyStr s => quoteStr s
  | .pyList xs => "[" ++ joinComma (serializeList xs) ++ "]"
  | .pyDict kvs => "\x7b" ++ joinComma (renderPairs (sortPairs (serializeKvs kvs))) ++ "\x7d"

/-- Serializations of the elements of a list value. -/
def serializeList : List PyVal → List String
  | [] => []
  | v :: vs => serialize v :: serializeList vs

/-- Key/serialized-value pairs of a dict value, in insertion order. -/
def serializeKvs : List (String × PyVal) → List (String × String)
  | [] => []
  | (k, v) :: tl => (k, serialize v) :: serializeKvs tl

end

/-- Canonical result hash, the body shared verbatim by
`ONNXEngine.compute_hash` and `VLLMEngine.compute_hash`:
`"0x" + sha256(json.dumps(d, sort_keys=True, separators=(',', ':'))
.encode('utf-8')).hexdigest()`. -/
def compute_hash (d : PyVal) : String :=
  "0x" ++ sha256hexStr (serialize d)

/-! ### Engine result structures and batch execution -/

/-- Default `temperature=0.0` of `VLLMEngine.run_inference`, rendered by
`json.dumps` as `0.0`. -/
def temp0 : PyFloat := .finite "0.0"

/-- The `results` dict built by `VLLMEngine.run_inference` before hashing:
`{"prompts": prompts, "outputs": generated_texts, "model": self.model_name,
"params": {"max_tokens": max_tokens, "temperature": temperature,
"seed": 0}}`, in source insertion order. -/
def vllmResults (prompts outs : List String) (model : String)
    (maxTokens : Int) (temperature : PyFloat) : PyVal :=
  .pyDict
    [("prompts", .pyList (prompts.map .pyStr)),
     ("outputs", .pyList (outs.map .pyStr)),
     ("model", .pyStr model),
     ("params", .pyDict
        [("max_tokens", .pyInt maxTokens),
         ("temperature", .pyFloat temperature),
         ("seed", .pyInt 0)])]

/-- `VLLMEngine.run_inference`: the LLM generation itself is the external
vLLM library; with the engine's pinned seed and temperature it is a function
of the prompt, modelled by `gen`.  The method returns the generated texts in
prompt order together with `compute_hash` of the `results` dict. -/
def vllm_run_inference (model : String) (gen : String → String)
    (prompts : List String) (maxTokens : Int) (temperature : PyFloat) :
    List String × String :=
  let outs := prompts.map gen
  (outs, compute_hash (vllmResults prompts outs model maxTokens temperature))

/-- `VLLMEngine.run_batch`: slices the prompt list into consecutive
`batch_size` chunks, calls `run_inference` on each chunk (default
temperature 0.0), concatenates the outputs in order, and hashes the dict
`{"outputs": all_outputs, "model": self.model_name,
"batch_size": batch_size}`. -/
def vllm_run_batch (model : String) (gen : String → String)
    (prompts : List String) (batchSize : Nat) (maxTokens : Int) :
    List String × String :=
  let allOutputs :=
    ((chunksOf batchSize prompts).map
      (fun b => (vllm_run_inference model gen b maxTokens temp0).1)).flatten
  let results : PyVal := .pyDict
    [("outputs", .pyList (allOutputs.map .pyStr)),
     ("model", .pyStr model),
     ("batch_size", .pyInt batchSize)]
  (allOutputs, compute_hash results)

/-- `ONNXEngine.run_inference`: the ONNX session run is external; the
serializable `output_dict` it produces is taken as given.  The method
returns `(output_dict, self.compute_hash(output_dict))` — the hash input is
the output dict alone, with no model identifier or parameters. -/
def onnx_run_inference (modelPath : String) (outputDict : PyVal) :
    PyVal × String :=
  (outputDict, compute_hash outputDict)

/-! ### Chain client: `TensoraRPC.send_transaction` -/

/-- Transaction fields assembled by `send_transaction` via
`build_transaction`. -/
structure Tx where
  sender : String
  nonce : Nat
  value : Nat
  gas : Nat
  gasPrice : Nat
deriving Repr, DecidableEq

/-- Receipt returned by `wait_for_transaction_receipt`; `status = 1` means
on-chain success. -/
structure Receipt where
  status : Nat
deriving Repr, DecidableEq

/-- Environment of one `send_transaction` call: the chain state reads and
the fallible external operations, each returning `Except` where the Python
call can raise (`Except.error` also covers
`wait_for_transaction_receipt` exhausting its 120-second timeout). -/
structure ChainEnv where
  walletAddress : String
  txCount : Nat
  gasPrice : Nat
  estimateGas : Tx → Except String Nat
  signTx : Tx → Except String String
  sendRaw : String → Except String String
  waitReceipt : String → Except String Receipt

/-- The transaction dict first built by `send_transaction`: current account
nonce, the caller's value, the placeholder gas limit 500000, and the node's
gas price. -/
def buildTx (env : ChainEnv) (value : Nat) : Tx :=
  ⟨env.walletAddress, env.txCount, value, 500000, env.gasPrice⟩

/-- Gas limit with the 20% safety margin: Python computes
`int(estimated_gas * 1.2)`, which equals `6 * g / 5` (floor) for every
estimate below 2^50, where the double-precision product of `g` and the
float literal 1.2 always truncates to that value. -/
def gasWithMargin (g : Nat) : Nat := 6 * g / 5

/-- The transaction after the gas-estimation step: on success the gas limit
becomes the estimate plus the 20% margin, on failure the exception is
swallowed (`logger.warning`) and the 500000 default stands. -/
def finalTx (env : ChainEnv) (value : Nat) : Tx :=
  let tx := buildTx env value
  match env.estimateGas tx with
  | .ok g => { tx with gas := gasWithMargin g }
  | .error _ => tx

/-- Tail of `TensoraRPC.send_transaction` after the gas step: sign the
transaction, broadcast it, wait for the receipt, then return the
transaction hash if the receipt status is 1 and raise otherwise; any
exception propagates to the caller (the method's `except` clause logs and
re-raises). -/
def submitSigned (env : ChainEnv) (tx : Tx) : Except String String :=
  match env.signTx tx with
  | .error e => .error e
  | .ok raw =>
    match env.sendRaw raw with
    | .error e => .error e
    | .ok txHash =>
      match env.waitReceipt txHash with
      | .error e => .error e
      | .ok r =>
        if r.status = 1 then .ok txHash
        else .error ("Transaction failed: " ++ txHash)

/-- `TensoraRPC.send_transaction`: build the transaction, apply the
gas-estimation step, then sign, broadcast and wait for confirmation. -/
def send_transaction (env : ChainEnv) (value : Nat) : Except String String :=
  submitSigned env (finalTx env value)

/-! ### IPFS utilities -/

/-- `upload_to_ipfs`: the HTTP `add` call is the external oracle
`remoteAdd`; on success the method returns `"ipfs://" + cid` with the
network-assigned CID, and on any exception it logs and falls back to
`"0x" + sha256(data.encode()).hexdigest()` without raising. -/
def upload_to_ipfs (remoteAdd : String → Except String String)
    (data : String) : String :=
  match remoteAdd data with
  | .ok cid => "ipfs://" ++ cid
  | .error _ => "0x" ++ sha256hexStr data

/-- `verify_cid`: `expected_cid.endswith(
hashlib.sha256(data).hexdigest()[:32])`. -/
def verify_cid (data : List Nat) (expectedCid : String) : Bool :=
  List.isSuffixOf ((sha256hex data).data.take 32) expectedCid.data

/-- Control point of one `download_from_ipfs` call for a fixed address:
before the cache-existence check, suspended inside the awaited HTTP
download, or returned with the bytes the caller's cache path holds. -/
inductive FetchPc where
  | ready
  | fetching
  | done (bytes : List Nat)
deriving Repr, DecidableEq

/-- Shared state of two concurrent `download_from_ipfs` calls for the same
address: the cache entry for that address, how many remote retrievals were
issued, and each call's control point. -/
structure FetchSt where
  cache : Option (List Nat)
  retrievals : Nat
  pc1 : FetchPc
  pc2 : FetchPc
deriving Repr, DecidableEq

/-- One asyncio step of a single `download_from_ipfs` call whose gateway
returns `gw`: from `ready` the call checks `cache_path.exists()` and either
returns the cached bytes or starts the remote download (the function takes
no lock, so nothing records the in-flight download in shared state); from
`fetching` the awaited download completes, the bytes are written to the
cache path, and the call returns them. -/
def fetchStep (gw : List Nat) :
    FetchPc → Option (List Nat) → Nat → FetchPc × Option (List Nat) × Nat
  | .ready, some b, r => (.done b, some b, r)
  | .ready, none, r => (.fetching, none, r + 1)
  | .fetching, _, r => (.done gw, some gw, r)
  | .done b, c, r => (.done b, c, r)

/-- Run two interleaved `download_from_ipfs` calls under an asyncio
schedule: `true` steps the first call, `false` the second. -/
def runFetches (gw : List Nat) : List Bool → FetchSt → FetchSt
  | [], st => st
  | true :: rest, st =>
      let (pc, c, r) := fetchStep gw st.pc1 st.cache st.retrievals
      runFetches gw rest ⟨c, r, pc, st.pc2⟩
  | false :: rest, st =>
      let (pc, c, r) := fetchStep gw st.pc2 st.cache st.retrievals
      runFetches gw rest ⟨c, r, st.pc1, pc⟩

/-- Initial state of two concurrent fetches of an address not yet cached. -/
def fetchInit : FetchSt := ⟨none, 0, .ready, .ready⟩

/-! ### Properties of the code-point order -/

theorem charToNat_inj {a b : Char} (h : a.toNat = b.toNat) : a = b :=
  Char.ext (UInt32.ext h)

theorem string_data_inj {s t : String} (h : s.data = t.data) : s = t := by
  cases s
  cases t
  exact congrArg String.mk h

theorem charListLtB_irrefl : ∀ l : List Char, charListLtB l l = false := by
  intro l
  induction l with
  | nil => rfl
  | cons a as ih => simp [charListLtB, ih]

theorem charListLtB_trans : ∀ a b c : List Char, charListLtB a b = true →
    charListLtB b c = true → charListLtB a c = true := by
  intro a
  induction a with
  | nil =>
      intro b c hab hbc
      cases b with
      | nil => simp [charListLtB] at hab
      | cons y ys =>
          cases c with
          | nil => simp [charListLtB] at hbc
          | cons z zs => rfl
  | cons x xs ih =>
      intro b c hab hbc
      cases b with
      | nil => simp [charListLtB] at hab
      | cons y ys =>
          cases c with
          | nil => simp [charListLtB] at hbc
          | cons z zs =>
              simp only [charListLtB, Bool.or_eq_true, Bool.and_eq_true,
                decide_eq_true_eq] at hab hbc ⊢
              rcases hab with h1 | ⟨h1, h1r⟩
              · rcases hbc with h2 | ⟨h2, _⟩
                · exact Or.inl (h1.trans h2)
                · exact Or.inl (h2 ▸ h1)
              · rcases hbc with h2 | ⟨h2, h2r⟩
                · exact Or.inl (h1 ▸ h2)
                · exact Or.inr ⟨h1.trans h2, ih ys zs h1r h2r⟩

theorem charListLtB_eq_of_not : ∀ a b : List Char, charListLtB a b = false →
    charListLtB b a = false → a = b := by
  intro a
  induction a with
  | nil =>
      intro b hab _
      cases b with
      | nil => rfl
      | cons y ys => simp [charListLtB] at hab
  | cons x xs ih =>
      intro b hab hba
      cases b with
      | nil => simp [charListLtB] at hba
      | cons y ys =>
          simp only [charListLtB, Bool.or_eq_false_iff, Bool.and_eq_false_iff,
            decide_eq_false_iff_not] at hab hba
          have hxy : x.toNat = y.toNat := by omega
          have hx : x = y := charToNat_inj hxy
          subst hx
          have h1 : charListLtB xs ys = false := by
            rcases hab.2 with h | h
            · omega
            · exact h
          have h2 : charListLtB ys xs = false := by
            rcases hba.2 with h | h
            · omega
            · exact h
          rw [ih ys h1 h2]

theorem charListLtB_asymm {a b : List Char} (h : charListLtB a b = true) :
    charListLtB b a = false := by
  cases hx : charListLtB b a
  · rfl
  · exfalso
    have hlt := charListLtB_trans a b a h hx
    rw [charListLtB_irrefl a] at hlt
    exact Bool.noConfusion hlt

instance : IsTotal (String × String) pairLe where
  total a b := by
    unfold pairLe strLeB
    cases h : charListLtB b.1.data a.1.data
    · exact Or.inl (by simp [h])
    · exact Or.inr (by simp [charListLtB_asymm h])

instance : IsTrans (String × String) pairLe where
  trans a b c hab hbc := by
    unfold pairLe strLeB at hab hbc ⊢
    simp only [Bool.not_eq_true'] at hab hbc ⊢
    cases hca : charListLtB c.1.data a.1.data
    · rfl
    · exfalso
      cases hbc2 : charListLtB b.1.data c.1.data
      · have heq := charListLtB_eq_of_not _ _ hbc2 hbc
        rw [← heq] at hca
        rw [hab] at hca
        exact Bool.noConfusion hca
      · have hba := charListLtB_trans _ _ _ hbc2 hca
        rw [hab] at hba
        exact Bool.noConfusion hba

instance : IsAntisymm (String × String) pairLt where
  antisymm a b hab hba := by
    unfold pairLt strLtB at hab hba
    have hf := charListLtB_asymm hab
    rw [hba] at hf
    exact Bool.noConfusion hf

theorem pairLt_of_le_ne {a b : String × String} (hle : pairLe a b)
    (hne : a.1 ≠ b.1) : pairLt a b := by
  unfold pairLe strLeB at hle
  unfold pairLt strLtB
  simp only [Bool.not_eq_true'] at hle
  cases hab : charListLtB a.1.data b.1.data
  · exact absurd (string_data_inj (charListLtB_eq_of_not _ _ hab hle)) hne
  · rfl

/-! ### Sorted-pair lemmas: `sort_keys=True` is insertion-order independent -/

theorem sortPairs_perm (l : List (String × String)) : (sortPairs l).Perm l :=
  List.perm_insertionSort pairLe l

theorem sortPairs_sorted (l : List (String × String)) :
    List.Sorted pairLe (sortPairs l) :=
  List.sorted_insertionSort pairLe l

theorem sorted_strict_of_nodup_keys {l : List (String × String)}
    (hs : List.Sorted pairLe l) (hnd : (l.map Prod.fst).Nodup) :
    List.Sorted pairLt l := by
  have hne : List.Pairwise (fun a b : String × String => a.1 ≠ b.1) l :=
    List.pairwise_map.mp hnd
  exact (hs.and hne).imp fun h => pairLt_of_le_ne h.1 h.2

theorem sortPairs_eq_of_perm {l1 l2 : List (String × String)}
    (h : l1.Perm l2) (hnd : (l1.map Prod.fst).Nodup) :
    sortPairs l1 = sortPairs l2 := by
  have hnd1 : ((sortPairs l1).map Prod.fst).Nodup :=
    (((sortPairs_perm l1).map Prod.fst).nodup_iff).mpr hnd
  have hnd2' : (l2.map Prod.fst).Nodup := ((h.map Prod.fst).nodup_iff).mp hnd
  have hnd2 : ((sortPairs l2).map Prod.fst).Nodup :=
    (((sortPairs_perm l2).map Prod.fst).nodup_iff).mpr hnd2'
  exact List.eq_of_perm_of_sorted
    ((sortPairs_perm l1).trans (h.trans (sortPairs_perm l2).symm))
    (sorted_strict_of_nodup_keys (sortPairs_sorted l1) hnd1)
    (sorted_strict_of_nodup_keys (sortPairs_sorted l2) hnd2)

/-! ### Serializer congruence under key insertion order -/

theorem serializeKvs_eq_map (l : List (String × PyVal)) :
    serializeKvs l = l.map (fun kv => (kv.1, serialize kv.2)) := by
  induction l with
  | nil => rfl
  | cons kv tl ih =>
      cases kv with
      | mk k v => simp [serializeKvs, ih]

theorem serialize_dict_eq (kvs : List (String × PyVal)) :
    serialize (.pyDict kvs) =
      "\x7b" ++ joinComma (renderPairs (sortPairs (serializeKvs kvs))) ++ "\x7d" := by
  simp [serialize]

theorem serialize_dict_insertion_order {kvs1 kvs2 : List (String × PyVal)}
    (h : kvs1.Perm kvs2) (hnd : (kvs1.map Prod.fst).Nodup) :
    serialize (.pyDict kvs1) = serialize (.pyDict kvs2) := by
  have hperm : (serializeKvs kvs1).Perm (serializeKvs kvs2) := by
    rw [serializeKvs_eq_map, serializeKvs_eq_map]
    exact h.map _
  have hkeys : (serializeKvs kvs1).map Prod.fst = kvs1.map Prod.fst := by
    rw [serializeKvs_eq_map]
    simp
  have hsorted : sortPairs (serializeKvs kvs1) = sortPairs (serializeKvs kvs2) :=
    sortPairs_eq_of_perm hperm (by rw [hkeys]; exact hnd)
  rw [serialize_dict_eq, serialize_dict_eq, hsorted]

/-! ### String-append cancellation helpers -/

theorem append_0x_inj {a b : String} (h : ("0x" ++ a : String) = "0x" ++ b) :
    a = b := by
  have hd := congrArg String.data h
  simp only [String.data_append] at hd
  exact string_data_inj (List.append_cancel_left hd)

theorem append_inj_mid {x y s : List Char} (h : x ++ s = y ++ s) : x = y := by
  have hl : x.length = y.length := by
    have h2 := congrArg List.length h
    simp only [List.length_append] at h2
    omega
  exact (List.append_inj h hl).1

/-! ### Injectivity of the decimal rendering -/

theorem decEval_append_digit (l : List Char) (c : Char) :
    decEval (l ++ [c]) = 10 * decEval l + (c.toNat - 48) := by
  simp [decEval, List.foldl_append]

theorem natDecAux_eval : ∀ fuel n, n ≤ fuel → decEval (natDecAux fuel n) = n := by
  intro fuel
  induction fuel with
  | zero =>
      intro n hn
      interval_cases n
      rfl
  | succ fuel ih =>
      intro n hn
      by_cases h0 : n = 0
      · subst h0
        simp [natDecAux, decEval]
      · have hdiv : n / 10 ≤ fuel := by
          have := Nat.div_lt_self (Nat.pos_of_ne_zero h0) (by omega : 1 < 10)
          omega
        have hd : (Nat.digitChar (n % 10)).toNat - 48 = n % 10 := by
          have : n % 10 < 10 := Nat.mod_lt n (by omega)
          revert this
          generalize n % 10 = d
          revert d
          decide
        simp only [natDecAux, if_neg h0]
        rw [decEval_append_digit, ih _ hdiv, hd]
        omega

/-! ### Decimal rendering is injective -/

theorem string_append_left_cancel {p a b : String} (h : p ++ a = p ++ b) :
    a = b := by
  have hd := congrArg String.data h
  simp only [String.data_append] at hd
  exact string_data_inj (List.append_cancel_left hd)

theorem natDecimal_eval (n : Nat) : decEval (natDecimal n).data = n := by
  unfold natDecimal
  by_cases h : n = 0
  · subst h
    decide
  · simp only [if_neg h]
    exact natDecAux_eval n n le_rfl

theorem natDecimal_inj {n m : Nat} (h : natDecimal n = natDecimal m) : n = m := by
  have := congrArg (fun s => decEval s.data) h
  simpa [natDecimal_eval] using this

theorem natDecAux_chars : ∀ fuel n, ∀ c ∈ natDecAux fuel n,
    48 ≤ c.toNat ∧ c.toNat ≤ 57 := by
  intro fuel
  induction fuel with
  | zero => intro n c hc; simp [natDecAux] at hc
  | succ fuel ih =>
      intro n c hc
      by_cases h0 : n = 0
      · subst h0
        simp [natDecAux] at hc
      · simp only [natDecAux, if_neg h0, List.mem_append, List.mem_singleton] at hc
        rcases hc with hc | hc
        · exact ih _ c hc
        · subst hc
          have hlt : n % 10 < 10 := Nat.mod_lt n (by omega)
          revert hlt
          generalize n % 10 = d
          revert d
          decide

theorem natDecimal_chars {n : Nat} {c : Char} (h : c ∈ (natDecimal n).data) :
    48 ≤ c.toNat ∧ c.toNat ≤ 57 := by
  unfold natDecimal at h
  by_cases h0 : n = 0
  · subst h0
    simp at h
    subst h
    decide
  · simp only [if_neg h0] at h
    exact natDecAux_chars n n c h

theorem intDecimal_inj {a b : Int} (h : intDecimal a = intDecimal b) : a = b := by
  cases a with
  | ofNat m =>
      cases b with
      | ofNat m' =>
          simp only [intDecimal] at h
          exact congrArg Int.ofNat (natDecimal_inj h)
      | negSucc m' =>
          exfalso
          have hd := congrArg String.data h
          simp only [intDecimal, String.data_append] at hd
          have hmem : '-' ∈ (natDecimal m).data := by
            rw [hd]
            exact List.mem_append_left _ (by decide)
          have := (natDecimal_chars hmem).1
          have h45 : ('-').toNat = 45 := rfl
          omega
  | negSucc m =>
      cases b with
      | ofNat m' =>
          exfalso
          have hd := congrArg String.data h.symm
          simp only [intDecimal, String.data_append] at hd
          have hmem : '-' ∈ (natDecimal m').data := by
            rw [hd]
            exact List.mem_append_left _ (by decide)
          have := (natDecimal_chars hmem).1
          have h45 : ('-').toNat = 45 := rfl
          omega
      | negSucc m' =>
          simp only [intDecimal] at h
          have hmm := natDecimal_inj (string_append_left_cancel h)
          have hm : m = m' := by omega
          rw [hm]

/-! ### Shape of the hex digest -/

theorem bytesToHex_length (bs : List Nat) :
    (bytesToHex bs).length = 2 * bs.length := by
  induction bs with
  | nil => rfl
  | cons b t ih =>
      simp only [bytesToHex, hexPair, List.length_append, List.length_cons,
        List.length_nil, ih]
      omega

theorem hashBytes_length (s : Hash8) : (hashBytes s).length = 32 := by
  simp [hashBytes, wordBytes]

theorem sha256hex_length (m : List Nat) : (sha256hex m).length = 64 := by
  show (bytesToHex (hashBytes (sha256 m))).length = 64
  rw [bytesToHex_length, hashBytes_length]

theorem digitChar_mem_hexChars : ∀ n < 16, Nat.digitChar n ∈ hexChars := by
  decide

theorem bytesToHex_subset_hexChars :
    ∀ bs : List Nat, ∀ c ∈ bytesToHex bs, c ∈ hexChars := by
  intro bs
  induction bs with
  | nil => intro c hc; simp [bytesToHex] at hc
  | cons b t ih =>
      intro c hc
      simp only [bytesToHex, hexPair, List.cons_append, List.nil_append,
        List.mem_cons] at hc
      rcases hc with hc | hc | hc
      · subst hc
        exact digitChar_mem_hexChars _ (Nat.mod_lt _ (by omega))
      · subst hc
        exact digitChar_mem_hexChars _ (Nat.mod_lt _ (by omega))
      · exact ih c hc

theorem sha256hexStr_length (s : String) : (sha256hexStr s).length = 64 :=
  sha256hex_length (utf8Encode s)

theorem sha256hexStr_chars {s : String} {c : Char}
    (h : c ∈ (sha256hexStr s).data) : c ∈ hexChars :=
  bytesToHex_subset_hexChars _ c h

theorem compute_hash_length (d : PyVal) : (compute_hash d).length = 66 := by
  show ("0x" ++ sha256hexStr (serialize d)).length = 66
  have hd : ("0x" ++ sha256hexStr (serialize d)).data =
      "0x".data ++ (sha256hexStr (serialize d)).data := String.data_append _ _
  show ("0x" ++ sha256hexStr (serialize d)).data.length = 66
  rw [hd]
  simp only [List.length_append]
  rw [show "0x".data.length = 2 from rfl]
  have := sha256hexStr_length (serialize d)
  simp only [String.length] at this
  omega

/-! ### Claims C1 and C2 -/

/-- C1: the canonical hash is deterministic and independent of dict key
insertion order: permuting the key/value pairs of a dict (whose keys are
unique, as Python dict keys are) leaves `compute_hash` unchanged; and,
granting collision-freeness of SHA-256 on the two serialized forms, two
values hash equal exactly when their canonical serialized forms (keys
sorted at every nesting level, no insignificant whitespace) coincide. -/
theorem claim1_canonical_hash_determinism
    (kvs1 kvs2 : List (String × PyVal)) (v1 v2 : PyVal) :
    (kvs1.Perm kvs2 → (kvs1.map Prod.fst).Nodup →
      compute_hash (.pyDict kvs1) = compute_hash (.pyDict kvs2)) ∧
    ((sha256hexStr (serialize v1) = sha256hexStr (serialize v2) →
        serialize v1 = serialize v2) →
      (compute_hash v1 = compute_hash v2 ↔ serialize v1 = serialize v2)) := by
  constructor
  · intro hperm hnd
    show "0x" ++ _ = "0x" ++ _
    rw [serialize_dict_insertion_order hperm hnd]
  · intro hinj
    constructor
    · intro h
      exact hinj (append_0x_inj h)
    · intro h
      show "0x" ++ _ = "0x" ++ _
      rw [h]

/-- Witness for C1: a two-key dict written in both insertion orders, and
the hash/serialization equivalence at a concrete value. -/
theorem claim1_witness :
    compute_hash (.pyDict [("b", .pyNull), ("a", .pyNull)]) =
      compute_hash (.pyDict [("a", .pyNull), ("b", .pyNull)]) ∧
    (compute_hash (.pyStr "x") = compute_hash (.pyStr "x") ↔
      serialize (.pyStr "x") = serialize (.pyStr "x")) :=
  ⟨(claim1_canonical_hash_determinism
      ([("b", .pyNull), ("a", .pyNull)] : List (String × PyVal))
      ([("a", .pyNull), ("b", .pyNull)] : List (String × PyVal))
      .pyNull .pyNull).1
      (List.Perm.swap ("a", PyVal.pyNull) ("b", PyVal.pyNull) []) (by decide),
   (claim1_canonical_hash_determinism [] [] (.pyStr "x") (.pyStr "x")).2
      (fun _ => rfl)⟩

/-- C2: `compute_hash` returns the string `"0x"` followed by the lowercase
hexadecimal SHA-256 digest of the UTF-8 bytes of the canonical JSON
serialization (keys sorted, separators `','`/`':'`), and the result is
exactly 66 characters long. -/
theorem claim2_hash_format (d : PyVal) :
    compute_hash d = "0x" ++ sha256hexStr (serialize d) ∧
    (compute_hash d).length = 66 ∧
    ∀ c ∈ (sha256hexStr (serialize d)).data, c ∈ hexChars :=
  ⟨rfl, compute_hash_length d, fun _ hc => sha256hexStr_chars hc⟩

/-- Witness for C2 at a concrete input. -/
theorem claim2_witness : (compute_hash .pyNull).length = 66 :=
  (claim2_hash_format .pyNull).2.1

/-! ### The vLLM hash input determines max_tokens -/

theorem sortPairs_vllm (pa ob mo pr : String) :
    sortPairs [("prompts", pa), ("outputs", ob), ("model", mo), ("params", pr)] =
      [("model", mo), ("outputs", ob), ("params", pr), ("prompts", pa)] := rfl

theorem sortPairs_params (mt te se : String) :
    sortPairs [("max_tokens", mt), ("temperature", te), ("seed", se)] =
      [("max_tokens", mt), ("seed", se), ("temperature", te)] := rfl

theorem vllm_serialize_maxTokens_inj (p o : List String) (m : String)
    (f : PyFloat) (t1 t2 : Int)
    (h : serialize (vllmResults p o m t1 f) = serialize (vllmResults p o m t2 f)) :
    t1 = t2 := by
  simp only [vllmResults, serialize, serializeKvs, sortPairs_vllm, sortPairs_params,
    renderPairs, List.map, joinComma] at h
  have hd := congrArg String.data h
  simp only [String.data_append, List.append_assoc] at hd
  iterate 16 replace hd := List.append_cancel_left hd
  exact intDecimal_inj (string_data_inj (append_inj_mid hd))

/-! ### Claims C3, C4 -/

/-- C3 counterexample: the ONNX engine's result hash covers only the
output dict, so two executions configured with different model files and
producing an identical output payload yield one and the same result
hash — the claim's "for both engine kinds" fails for the ONNX engine. -/
theorem claim3_counterexample :
    (onnx_run_inference "a.onnx"
        (.pyDict [("y", .pyList [.pyFloat (.finite "3.0")])])).2 =
      (onnx_run_inference "b.onnx"
        (.pyDict [("y", .pyList [.pyFloat (.finite "3.0")])])).2 ∧
    "a.onnx" ≠ "b.onnx" :=
  ⟨rfl, by decide⟩

/-- C3 (amended): the vLLM engine hashes the output payload together with
the model identifier and the execution parameters (max_tokens, temperature,
seed), so — granting SHA-256 collision-freeness on the two serialized
forms — two runs with equal prompts, outputs and model but different
`max_tokens` produce different result hashes; the ONNX engine hashes the
output dict alone, so its result hash never distinguishes two engine
configurations with equal output payload. -/
theorem claim3_metadata_in_hash (m : String) (gen : String → String)
    (p : List String) (f : PyFloat) (t1 t2 : Int)
    (hne : t1 ≠ t2)
    (hinj : sha256hexStr (serialize (vllmResults p (p.map gen) m t1 f)) =
              sha256hexStr (serialize (vllmResults p (p.map gen) m t2 f)) →
            serialize (vllmResults p (p.map gen) m t1 f) =
              serialize (vllmResults p (p.map gen) m t2 f)) :
    (vllm_run_inference m gen p t1 f).2 ≠ (vllm_run_inference m gen p t2 f).2 ∧
    ∀ (path1 path2 : String) (out : PyVal),
      (onnx_run_inference path1 out).2 = (onnx_run_inference path2 out).2 := by
  constructor
  · intro h
    exact hne (vllm_serialize_maxTokens_inj p (p.map gen) m f t1 t2
      (hinj (append_0x_inj h)))
  · intro _ _ _
    rfl

set_option maxRecDepth 100000 in
/-- Witness for C3 (amended) at concrete inputs. -/
theorem claim3_witness :
    (vllm_run_inference "m" (fun s => s) ["a"] 100 temp0).2 ≠
      (vllm_run_inference "m" (fun s => s) ["a"] 50 temp0).2 :=
  (claim3_metadata_in_hash "m" (fun s => s) ["a"] temp0 100 50
    (by decide) (by decide)).1

set_option maxRecDepth 100000 in
/-- C4 counterexample: `compute_hash` of a dict holding NaN does not fail —
`json.dumps` (default `allow_nan=True`) serializes the value as the token
`NaN` and the method returns an ordinary hash (the digest checked here
agrees with CPython's `hashlib`). -/
theorem claim4_counterexample :
    serialize (.pyDict [("x", .pyFloat .nan)]) = "\x7b\"x\":NaN\x7d" ∧
    compute_hash (.pyDict [("x", .pyFloat .nan)]) =
      "0xc238cb6e9ac5407491b0988102620ab9445290d2ed7713c516a2b28bd2388968" := by
  constructor
  · rfl
  · decide

/-- C4 (amended): `compute_hash` never raises on non-finite numbers: NaN,
Infinity and -Infinity are serialized as the `json.dumps` tokens `NaN`,
`Infinity`, `-Infinity`, and every value — non-finite numbers included — is
hashed to an ordinary 66-character `0x`-prefixed digest; inputs with only
finite numbers likewise never fail. -/
theorem claim4_nonfinite_hashed (v : PyVal) :
    serialize (.pyFloat .nan) = "NaN" ∧
    serialize (.pyFloat .inf) = "Infinity" ∧
    serialize (.pyFloat .ninf) = "-Infinity" ∧
    compute_hash v = "0x" ++ sha256hexStr (serialize v) ∧
    (compute_hash v).length = 66 :=
  ⟨rfl, rfl, rfl, rfl, compute_hash_length v⟩

/-! ### Claim C5: batching -/

theorem chunksAux_flatten {α : Type} (bs : Nat) (hbs : 1 ≤ bs) :
    ∀ fuel (xs : List α), xs.length ≤ fuel →
      (chunksAux bs fuel xs).flatten = xs := by
  intro fuel
  induction fuel with
  | zero =>
      intro xs h
      cases xs with
      | nil => rfl
      | cons x tl => simp at h
  | succ fuel ih =>
      intro xs h
      cases xs with
      | nil => rfl
      | cons x tl =>
          simp only [chunksAux, List.flatten_cons]
          rw [ih _ (by simp [List.length_drop] at *; omega)]
          exact List.take_append_drop bs (x :: tl)

theorem chunksOf_flatten {α : Type} {bs : Nat} (hbs : 1 ≤ bs) (xs : List α) :
    (chunksOf bs xs).flatten = xs :=
  chunksAux_flatten bs hbs xs.length xs le_rfl

/-- C5 (amended): `run_batch` executes consecutive fixed-size chunks
sequentially and returns the concatenated outputs in the original prompt
order — identical to the outputs of one non-batched `run_inference` over
the whole list — but it hashes the dict
`{"outputs": ..., "model": ..., "batch_size": ...}`, a different structure
from the one `run_inference` hashes, so the two hashes do not coincide in
general. -/
theorem claim5_batch_order (model : String) (gen : String → String)
    (prompts : List String) (bs : Nat) (mt : Int) (hbs : 1 ≤ bs) :
    (vllm_run_batch model gen prompts bs mt).1 = prompts.map gen ∧
    (vllm_run_batch model gen prompts bs mt).1 =
      (vllm_run_inference model gen prompts mt temp0).1 ∧
    (vllm_run_batch model gen prompts bs mt).2 =
      compute_hash (.pyDict
        [("outputs", .pyList ((prompts.map gen).map .pyStr)),
         ("model", .pyStr model),
         ("batch_size", .pyInt bs)]) := by
  have houts : (vllm_run_batch model gen prompts bs mt).1 = prompts.map gen := by
    show ((chunksOf bs prompts).map
        (fun b => (vllm_run_inference model gen b mt temp0).1)).flatten =
      prompts.map gen
    have hfun : (fun b : List String =>
        (vllm_run_inference model gen b mt temp0).1) =
        fun b : List String => b.map gen := rfl
    rw [hfun, ← List.map_flatten, chunksOf_flatten hbs]
  refine ⟨houts, houts, ?_⟩
  show compute_hash (.pyDict
      [("outputs", .pyList ((vllm_run_batch model gen prompts bs mt).1.map .pyStr)),
       ("model", .pyStr model),
       ("batch_size", .pyInt bs)]) = _
  rw [houts]

/-- Witness for C5 (amended) at concrete inputs. -/
theorem claim5_witness :
    (vllm_run_batch "mm" (fun s => s) ["x", "y", "z"] 2 10).1 =
      ["x", "y", "z"].map (fun s => s) :=
  (claim5_batch_order "mm" (fun s => s) ["x", "y", "z"] 2 10 (by decide)).1

set_option maxRecDepth 100000 in
/-- C5 counterexample: with batch size 2 over `["a","b","c"]` the batched
outputs equal the non-batched outputs, but the combined hash of
`run_batch` differs from the hash `run_inference` returns for the whole
list, because the two methods hash different dicts. -/
theorem claim5_counterexample :
    (vllm_run_batch "m" (fun s => s) ["a", "b", "c"] 2 100).1 =
      (vllm_run_inference "m" (fun s => s) ["a", "b", "c"] 100 temp0).1 ∧
    (vllm_run_batch "m" (fun s => s) ["a", "b", "c"] 2 100).2 ≠
      (vllm_run_inference "m" (fun s => s) ["a", "b", "c"] 100 temp0).2 := by
  constructor
  · rfl
  · decide

/-! ### Claims C6 and C7: the chain client -/

/-- C6: `send_transaction` returns the transaction hash exactly when
signing and broadcast succeed and the confirmation receipt reports
status 1; in every other case — receipt status not 1, timeout or exception
while waiting for the receipt, or a signing/broadcast exception — the call
ends in an exception and no transaction hash is returned. -/
theorem claim6_send_transaction_outcome (env : ChainEnv) (v : Nat) (h : String) :
    (send_transaction env v = .ok h ↔
      ∃ raw, env.signTx (finalTx env v) = .ok raw ∧
        env.sendRaw raw = .ok h ∧
        ∃ r, env.waitReceipt h = .ok r ∧ r.status = 1) ∧
    ((∃ e, send_transaction env v = .error e) ↔
      ¬ ∃ hsh, send_transaction env v = .ok hsh) := by
  constructor
  · unfold send_transaction submitSigned
    cases hs : env.signTx (finalTx env v) with
    | error e => simp [hs]
    | ok raw =>
        cases hb : env.sendRaw raw with
        | error e => simp [hs, hb]
        | ok txh =>
            cases hw : env.waitReceipt txh with
            | error e =>
                simp only [hs, hb, hw]
                constructor
                · intro hcon
                  exact Except.noConfusion hcon
                · rintro ⟨raw2, hraw2, hb2, r, hr, _⟩
                  obtain rfl : raw2 = raw := by
                    injection hraw2 with hh
                    exact hh.symm
                  rw [hb] at hb2
                  obtain rfl : txh = h := by
                    injection hb2
                  rw [hw] at hr
                  exact Except.noConfusion hr
            | ok r =>
                by_cases hst : r.status = 1
                · simp only [hs, hb, hw, if_pos hst]
                  constructor
                  · intro hok
                    obtain rfl : txh = h := by injection hok
                    exact ⟨raw, rfl, hb, r, hw, hst⟩
                  · rintro ⟨raw2, hraw2, hb2, r2, hr2, hst2⟩
                    obtain rfl : raw2 = raw := by
                      injection hraw2 with hh
                      exact hh.symm
                    rw [hb] at hb2
                    obtain rfl : txh = h := by injection hb2
                    rfl
                · simp only [hs, hb, hw, if_neg hst]
                  constructor
                  · intro hcon
                    exact Except.noConfusion hcon
                  · rintro ⟨raw2, hraw2, hb2, r2, hr2, hst2⟩
                    obtain rfl : raw2 = raw := by
                      injection hraw2 with hh
                      exact hh.symm
                    rw [hb] at hb2
                    obtain rfl : txh = h := by injection hb2
                    rw [hw] at hr2
                    obtain rfl : r2 = r := by
                      injection hr2 with hh
                      exact hh.symm
                    exact absurd hst2 hst
  · cases hr : send_transaction env v with
    | ok hsh => simp [hr]
    | error e => simp [hr]

/-- C7: the gas step of `send_transaction`: when estimation succeeds the
submitted transaction carries the estimate with the fixed 20% safety margin
(`int(estimated_gas * 1.2)`, i.e. ⌊6g/5⌋); when estimation raises, the
exception is swallowed, the conservative 500000 default stands, and the
submission still proceeds to signing and broadcast. -/
theorem claim7_gas_margin (env : ChainEnv) (v : Nat) :
    (∀ g, env.estimateGas (buildTx env v) = .ok g →
      finalTx env v = { buildTx env v with gas := gasWithMargin g }) ∧
    (∀ e, env.estimateGas (buildTx env v) = .error e →
      (finalTx env v).gas = 500000 ∧
      send_transaction env v = submitSigned env (buildTx env v)) := by
  constructor
  · intro g hg
    simp only [finalTx, hg]
  · intro e he
    have hfin : finalTx env v = buildTx env v := by
      simp only [finalTx, he]
    exact ⟨by rw [hfin]; rfl, by unfold send_transaction; rw [hfin]⟩

/-- Environment with a succeeding gas estimator, for the C7 witness. -/
def envGasOk : ChainEnv :=
  ⟨"0xw", 7, 3, fun _ => .ok 100, fun _ => .ok "raw", fun _ => .ok "0xh",
   fun _ => .ok ⟨1⟩⟩

/-- Environment whose gas estimator raises, for the C7 witness. -/
def envGasBad : ChainEnv :=
  ⟨"0xw", 7, 3, fun _ => .error "execution reverted", fun _ => .ok "raw",
   fun _ => .ok "0xh", fun _ => .ok ⟨1⟩⟩

/-- Witness for C7: a successful estimate of 100 yields gas 120, and a
failing estimator leaves gas 500000 while the submission still runs. -/
theorem claim7_witness :
    finalTx envGasOk 0 = { buildTx envGasOk 0 with gas := 120 } ∧
    (finalTx envGasBad 0).gas = 500000 ∧
    send_transaction envGasBad 0 = submitSigned envGasBad (buildTx envGasBad 0) :=
  ⟨(claim7_gas_margin envGasOk 0).1 100 rfl,
   ((claim7_gas_margin envGasBad 0).2 "execution reverted" rfl).1,
   ((claim7_gas_margin envGasBad 0).2 "execution reverted" rfl).2⟩

/-! ### Claim C8: IPFS publish fallback -/

/-- C8: `upload_to_ipfs` returns `"ipfs://" ++ cid` with the
network-assigned CID when the remote store accepts the upload; when the
upload raises it does not propagate the exception but returns the fallback
`"0x" ++ sha256-hex(utf8(data))`, and that fallback is never of the
`ipfs://`-prefixed remote form. -/
theorem claim8_upload_fallback (remoteAdd : String → Except String String)
    (data : String) :
    (∀ cid, remoteAdd data = .ok cid →
      upload_to_ipfs remoteAdd data = "ipfs://" ++ cid) ∧
    (∀ e, remoteAdd data = .error e →
      upload_to_ipfs remoteAdd data = "0x" ++ sha256hexStr data ∧
      ∀ c, upload_to_ipfs remoteAdd data ≠ "ipfs://" ++ c) := by
  constructor
  · intro cid hc
    unfold upload_to_ipfs
    rw [hc]
  · intro e he
    have hfb : upload_to_ipfs remoteAdd data = "0x" ++ sha256hexStr data := by
      unfold upload_to_ipfs
      rw [he]
    refine ⟨hfb, ?_⟩
    intro c hc
    rw [hfb] at hc
    have hd := congrArg String.data hc
    simp only [String.data_append] at hd
    simp at hd

/-- Witness for C8: one accepted upload and one failing upload. -/
theorem claim8_witness :
    upload_to_ipfs (fun _ => .ok "Qm123") "d" = "ipfs://" ++ "Qm123" ∧
    upload_to_ipfs (fun _ => .error "connection refused") "d" =
      "0x" ++ sha256hexStr "d" :=
  ⟨(claim8_upload_fallback (fun _ => .ok "Qm123") "d").1 "Qm123" rfl,
   ((claim8_upload_fallback (fun _ => .error "connection refused") "d").2
      "connection refused" rfl).1⟩

/-! ### Claim C9: no single-flight deduplication in the artifact fetch -/

/-- C9 counterexample: for an address not yet cached, the asyncio
interleaving in which both calls pass the `cache_path.exists()` check
before either download completes issues two remote retrievals, not the
exactly-one retrieval the claim requires. -/
theorem claim9_counterexample :
    (runFetches [1, 2, 3] [true, false, true, false] fetchInit).retrievals = 2 ∧
    (2 : Nat) ≠ 1 :=
  ⟨rfl, by decide⟩

/-- C9 (amended): `download_from_ipfs` takes no per-address lock, so two
concurrent calls for an uncached address can each trigger a remote
retrieval (two in total under the interleaving where both check the cache
first), though both callers end with the same gateway bytes; only when one
call completes before the other starts is the second served from the cache
with a single retrieval. -/
theorem claim9_no_single_flight (gw : List Nat) :
    runFetches gw [true, false, true, false] fetchInit =
      ⟨some gw, 2, .done gw, .done gw⟩ ∧
    runFetches gw [true, true, false] fetchInit =
      ⟨some gw, 1, .done gw, .done gw⟩ :=
  ⟨rfl, rfl⟩

/-! ### Claim C10: CID verification checks a 32-character suffix -/

/-- C10: `verify_cid` returns true exactly when the expected CID ends with
the first 32 hex characters of the SHA-256 digest of the data, and it
inspects nothing else: every address formed by an arbitrary prefix followed
by that 32-character digest fragment is accepted. -/
theorem claim10_verify_cid (data : List Nat) (cid : String) :
    (verify_cid data cid = true ↔
      List.IsSuffix ((sha256hex data).data.take 32) cid.data) ∧
    ∀ p : List Char,
      verify_cid data (String.mk (p ++ (sha256hex data).data.take 32)) = true := by
  constructor
  · exact List.isSuffixOf_iff_suffix
  · intro p
    show List.isSuffixOf _ _ = true
    rw [List.isSuffixOf_iff_suffix]
    exact List.suffix_append p _
